import Mathlib

/-!
Shallow embedding of `src/rules/checkTagNames.js` (eslint-plugin-jsdoc,
check-tag-names rule): the per-tag classification and rewrite-decision
engine.  Pure data is modelled directly; the recursive AST ancestor walk
is modelled as a list of ancestors (the annotated node first, the root
last); a JavaScript `TypeError` (null/undefined property access) is
modelled as `none` of an `Option` result.  Host utilities that live in
the repository outside `src/` (`utils.isValidTag`,
`utils.getPreferredTagName`, `utils.changeTag`, `utils.removeTag`) are
modelled from the specification, and are marked as such in their doc
comments.
-/

namespace CheckTagNames

/-- A syntactic AST node, reduced to the two fields the rule reads:
its `type` string and whether it carries a `declare` marker. -/
structure SrcNode where
  typ : String
  declare : Bool
deriving DecidableEq, Repr

/-- The ancestor chain of the annotated node: the node itself first,
then its parent, and so on; a well-formed ESLint chain ends with the
`Program` root.  An exhausted list models a null/undefined parent. -/
abbrev AncestorChain := List SrcNode

/-- A parsed JSDoc tag, reduced to the token fields the rule reads or
rewrites: `tag` (the name after `@`), `name` (the name-path word),
`description` (free text), `type` (the `\x7btype\x7d` annotation text) and
the two spacing tokens `postTag` / `postType`. -/
structure JsdocTag where
  tag : String
  name : String
  description : String
  type : String
  postTag : String
  postType : String
deriving DecidableEq, Repr

/-- `jsxTagNames` from the source (lines 5-10). -/
def jsxTagNames : List String :=
  ["jsx", "jsxFrag", "jsxImportSource", "jsxRuntime"]

/-- `typedTagsAlwaysUnnecessary` from the source (lines 12-26). -/
def typedTagsAlwaysUnnecessary : List String :=
  ["augments", "callback", "class", "enum", "implements", "private",
   "property", "protected", "public", "readonly", "this", "type",
   "typedef"]

/-- `typedTagsUnnecessaryOutsideDeclare` from the source (lines 28-57). -/
def typedTagsUnnecessaryOutsideDeclare : List String :=
  ["abstract", "access", "class", "constant", "constructs", "default",
   "enum", "export", "exports", "function", "global", "inherits",
   "instance", "interface", "member", "memberof", "memberOf", "method",
   "mixes", "mixin", "module", "name", "namespace", "override",
   "property", "requires", "static", "this"]

/-- `context.getFilename().endsWith('.d.ts')`, computed on the
character list so it evaluates by reduction. -/
def endsWithDts (filename : String) : Bool :=
  List.isSuffixOf ".d.ts".toList filename.toList

/-- JavaScript `description.trim()` is falsy exactly when every
character of the description is whitespace (the rule only ever tests
the trimmed string's truthiness). -/
def descriptionIsBlank (s : String) : Bool :=
  s.toList.all (fun c => c.isWhitespace)

/-- `isInAmbientContext` (source lines 106-110): walk the ancestor
chain; at a `Program` node the answer is whether the file is a `.d.ts`
file; a `declare`-marked node is ambient; otherwise recurse to the
parent.  Running off the end of the chain models the JavaScript
`TypeError` from reading `.type` of a missing parent, hence `none`. -/
def isInAmbientContext (filename : String) : AncestorChain → Option Bool
  | [] => none
  | n :: rest =>
    if n.typ = "Program" then some (endsWithDts filename)
    else if n.declare then some true
    else isInAmbientContext filename rest

/-- `tagIsRedundantWhenTyped` (source lines 112-130).  The source reads
`node.parent.type` under the `.d.ts` filename guard; a missing node or
parent there is a crash (`none`). -/
def tagIsRedundantWhenTyped (filename : String) (chain : AncestorChain)
    (t : JsdocTag) : Option Bool :=
  if !(typedTagsUnnecessaryOutsideDeclare.contains t.tag) then some false
  else if t.name = "default" then some false
  else
    let dtsTopLevel : Option Bool :=
      if endsWithDts filename then
        match (chain.drop 1).head? with
        | none => none
        | some p => some (p.typ = "Program")
      else some false
    match dtsTopLevel with
    | none => none
    | some true => some false
    | some false =>
      match isInAmbientContext filename chain with
      | none => none
      | some true => some false
      | some false => some true

/-- Token overrides handed to `utils.changeTag`, mirroring the object
literals built in the source (only the four keys the rule ever sets). -/
structure TagChanges where
  tag : Option String := none
  postTag : Option String := none
  type : Option String := none
  postType : Option String := none
deriving DecidableEq, Repr

/-- Modelled from the spec: `utils.changeTag` (repository code outside
`src/`) applies the given token overrides to the tag, leaving every
other token unchanged ("the fix strips only the ... portions,
preserving the description text"). -/
def applyTagChanges (t : JsdocTag) (c : TagChanges) : JsdocTag :=
  { t with
    tag := c.tag.getD t.tag
    postTag := c.postTag.getD t.postTag
    type := c.type.getD t.type
    postType := c.postType.getD t.postType }

/-- JavaScript object spread `\x7b postType: \x27\x27, type: \x27\x27,
...additionalTagChanges \x7d`: keys of `extra` win over `base`. -/
def mergeChanges (base extra : TagChanges) : TagChanges :=
  { tag := extra.tag.orElse (fun _ => base.tag)
    postTag := extra.postTag.orElse (fun _ => base.postTag)
    type := extra.type.orElse (fun _ => base.type)
    postType := extra.postType.orElse (fun _ => base.postType) }

/-- The three fix shapes the rule can attach to a diagnostic:
`removeTagLine` models `utils.removeTag tagIndex` (with its
`removeEmptyBlock` flag), `changeTokens` models `utils.changeTag`
applied to the tag, `replaceComment` models a whole-comment text
replacement via `fixer.replaceText`. -/
inductive JsdocFix where
  | removeTagLine (removeEmptyBlock : Bool)
  | changeTokens (result : JsdocTag)
  | replaceComment (newText : String)
deriving DecidableEq, Repr

/-- Which report site of the source produced a diagnostic. -/
inductive DiagKind where
  | typedAlwaysRedundant
  | typedRedundantOutsideAmbient
  | typedTemplateNoName
  | blacklistedTag
  | preferRename
  | invalidTagName
deriving DecidableEq, Repr

/-- One emitted diagnostic: its message and its optional fixer. -/
structure Diag where
  kind : DiagKind
  message : String
  fix : Option JsdocFix
deriving DecidableEq, Repr

/-- The fixer closure built by `reportWithTypeRemovalFixer` (source
lines 132-146): with a non-empty trimmed description, `changeTag` with
`postType`/`type` cleared plus the additional changes; otherwise
`removeTag` with `removeEmptyBlock: true`. -/
def typeRemovalFix (t : JsdocTag) (extra : TagChanges) : JsdocFix :=
  if descriptionIsBlank t.description then
    .removeTagLine true
  else
    .changeTokens (applyTagChanges t
      (mergeChanges { type := some "", postType := some "" } extra))

/-- `reportWithTypeRemovalFixer` as a diagnostic value. -/
def reportWithTypeRemovalFixer (kind : DiagKind) (message : String)
    (t : JsdocTag) (extra : TagChanges) : Diag :=
  { kind := kind, message := message, fix := some (typeRemovalFix t extra) }

/-- `checkTagForTypedValidity` (source lines 148-168): returns the
source's boolean (did it report) together with the diagnostics it
emitted; `none` models a crash propagated from the ambient walk. -/
def checkTagForTypedValidity (filename : String) (chain : AncestorChain)
    (t : JsdocTag) : Option (Bool × List Diag) :=
  if typedTagsAlwaysUnnecessary.contains t.tag then
    some (true, [reportWithTypeRemovalFixer .typedAlwaysRedundant
      ("\x27@" ++ t.tag ++ "\x27 is redundant when using a type system.")
      t { tag := some "", postTag := some "" }])
  else
    match tagIsRedundantWhenTyped filename chain t with
    | none => none
    | some true =>
      some (true, [reportWithTypeRemovalFixer .typedRedundantOutsideAmbient
        ("\x27@" ++ t.tag ++
         "\x27 is redundant outside of ambient (`declare`/`.d.ts`) contexts when using a type system.")
        t {}])
    | some false =>
      if t.tag = "template" ∧ t.name = "" then
        some (true, [reportWithTypeRemovalFixer .typedTemplateNoName
          "\x27@template\x27 without a name is redundant when using a type system."
          t {}])
      else
        some (false, [])

/-- The value shapes of `settings.jsdoc.tagNamePreference` entries:
a string, a falsy value (`false`/`null`), or an object with an optional
`replacement` and optional `message`. -/
inductive PrefValue where
  | str (s : String)
  | falsy
  | obj (replacement : Option String) (message : Option String)
deriving DecidableEq, Repr

/-- The resolved settings the rule reads. -/
structure RuleSettings where
  tagNamePreference : List (String × PrefValue)
  structuredTags : List String
deriving DecidableEq, Repr

/-- The rule's options object (`context.options[0]`). -/
structure RuleOptions where
  definedTags : List String := []
  jsxTags : Bool := false
  typed : Bool := false
deriving DecidableEq, Repr

/-- `definedPreferredTags` (source lines 82-104): the preference map's
values mapped to their replacement strings (strings kept as-is, falsy
values dropped, objects contribute their `replacement` field), then
filtered by JavaScript truthiness, which drops empty strings and
missing replacements. -/
def definedPreferredTags (pref : List (String × PrefValue)) : List String :=
  pref.filterMap (fun p =>
    match p.2 with
    | .str s => if s = "" then none else some s
    | .falsy => none
    | .obj r _ =>
      match r with
      | none => none
      | some s => if s = "" then none else some s)

/-- Modelled from the spec: `utils.isValidTag` (repository code outside
`src/`).  Per the spec's Policy Resolver step 2, validity is membership
in the combined allow-list the caller assembles (`definedTags`,
preferred-tag replacements, preference keys, structured tags). -/
def isValidTag (combined : List String) (tagName : String) : Bool :=
  combined.contains tagName

/-- The default message for a blacklisted tag, built at the call site
in the source (line 187). -/
def defaultBlockedMessage (tagName : String) : String :=
  "Blacklisted tag found (`@" ++ tagName ++ "`)"

/-- Result of resolving a tag name against the preference map:
`blocked` means "report with this message, no fix, stop"; `proceed`
carries the preferred name and an optional custom message. -/
inductive PrefResolution where
  | blocked (message : String)
  | proceed (preferred : String) (message : Option String)
deriving DecidableEq, Repr

/-- Modelled from the spec: `utils.getPreferredTagName` (repository
code outside `src/`).  A falsy or empty mapping, or an object whose
`replacement` is falsy, is blacklisted: reported (custom message if the
object carries one, else the default) with no fix.  A string value or a
truthy object `replacement` is the preferred name; a name not in the
map resolves to itself. -/
def getPreferredTagName (pref : List (String × PrefValue))
    (tagName : String) : PrefResolution :=
  match pref.lookup tagName with
  | none => .proceed tagName none
  | some (.str s) =>
    if s = "" then .blocked (defaultBlockedMessage tagName)
    else .proceed s none
  | some .falsy => .blocked (defaultBlockedMessage tagName)
  | some (.obj r m) =>
    match r with
    | none => .blocked (m.getD (defaultBlockedMessage tagName))
    | some s =>
      if s = "" then .blocked (m.getD (defaultBlockedMessage tagName))
      else .proceed s m

/-- JavaScript `\w`: ASCII letters, digits, underscore. -/
def isWordChar (c : Char) : Bool :=
  c.isAlpha || c.isDigit || c == '_'

/-- The `\b` assertion of the pattern `@name\b`, checked between the
last character of `@name` and the rest of the text: a boundary holds
when exactly one side is a word character (an absent next character
counts as non-word). -/
def boundaryAfter (old rest : List Char) : Bool :=
  isWordChar (List.getLastD ('@' :: old) '@') !=
    (match rest with
     | [] => false
     | c :: _ => isWordChar c)

/-- Does the regex `@old\b` (with `old` taken literally, i.e. escaped)
match at the start of `text`? -/
def matchHere (old text : List Char) : Bool :=
  (text.take (old.length + 1) == '@' :: old) &&
    boundaryAfter old (text.drop (old.length + 1))

/-- JavaScript `text.replace(new RegExp(pattern, 'u'), repl)` for the
pattern `@old\b` with replacement `@new`: replace the first match,
leave everything else unchanged (source lines 208-211). -/
def replaceFirstTag (old new : List Char) : List Char → List Char
  | [] => []
  | c :: rest =>
    if matchHere old (c :: rest) then
      '@' :: (new ++ List.drop old.length rest)
    else
      c :: replaceFirstTag old new rest

/-- Is there any position of `text` where `@old\b` matches? -/
def hasTagMatch (old : List Char) : List Char → Bool
  | [] => false
  | c :: rest => matchHere old (c :: rest) || hasTagMatch old rest

/-- String wrapper for `replaceFirstTag`. -/
def jsReplaceTag (old new text : String) : String :=
  ⟨replaceFirstTag old.toList new.toList text.toList⟩

/-- The allow-list / preferred-name part of the per-tag loop body
(source lines 181-218), after the JSX and typed checks have passed. -/
def policyCheck (o : RuleOptions) (s : RuleSettings) (commentText : String)
    (t : JsdocTag) : List Diag :=
  let combined := o.definedTags ++ definedPreferredTags s.tagNamePreference
    ++ s.tagNamePreference.map (fun p => p.1) ++ s.structuredTags
  if isValidTag combined t.tag then
    match getPreferredTagName s.tagNamePreference t.tag with
    | .blocked msg =>
      [{ kind := .blacklistedTag, message := msg, fix := none }]
    | .proceed preferred msgOpt =>
      let message := msgOpt.getD
        ("Invalid JSDoc tag (preference). Replace \"" ++ t.tag ++
         "\" JSDoc tag with \"" ++ preferred ++ "\".")
      if preferred = t.tag then []
      else
        [{ kind := .preferRename, message := message,
           fix := some (.replaceComment (jsReplaceTag t.tag preferred commentText)) }]
  else
    [{ kind := .invalidTagName,
       message := "Invalid JSDoc tag name \"" ++ t.tag ++ "\".",
       fix := none }]

/-- One iteration of the per-tag loop (source lines 170-219): the JSX
exemption first, then (when `typed`) the typed-validity check with its
`continue` on report, then the allow-list / preference policy.  `none`
models a crash propagated from the ambient walk. -/
def processTag (o : RuleOptions) (s : RuleSettings)
    (filename commentText : String) (chain : AncestorChain)
    (t : JsdocTag) : Option (List Diag) :=
  if o.jsxTags && jsxTagNames.contains t.tag then some []
  else if o.typed then
    match checkTagForTypedValidity filename chain t with
    | none => none
    | some (true, ds) => some ds
    | some (false, _) => some (policyCheck o s commentText t)
  else
    some (policyCheck o s commentText t)

/-- `tagIsRedundantWhenTyped` with the explicit `.d.ts`-and-parent-is-
`Program` early return (source lines 121-123) removed; used to state
that that check is subsumed by the ambient walk on well-formed trees. -/
def tagIsRedundantWhenTypedNoParentCheck (filename : String)
    (chain : AncestorChain) (t : JsdocTag) : Option Bool :=
  if !(typedTagsUnnecessaryOutsideDeclare.contains t.tag) then some false
  else if t.name = "default" then some false
  else
    match isInAmbientContext filename chain with
    | none => none
    | some true => some false
    | some false => some true

/-- A chain that reaches a `Program` root as its last element: the
well-formedness guarantee an ESLint AST gives the walk. -/
def endsAtProgram : AncestorChain → Bool
  | [] => false
  | [n] => n.typ == "Program"
  | _ :: rest => endsAtProgram rest

/-- Is a diagnostic one of the three typed-redundancy reports? -/
def diagIsTypedRedundancy (d : Diag) : Bool :=
  match d.kind with
  | .typedAlwaysRedundant => true
  | .typedRedundantOutsideAmbient => true
  | .typedTemplateNoName => true
  | _ => false

/-- Is a diagnostic the redundant-outside-ambient report? -/
def diagIsOutsideAmbient (d : Diag) : Bool :=
  match d.kind with
  | .typedRedundantOutsideAmbient => true
  | _ => false

/-- Does a per-tag result contain a redundant-outside-ambient report? -/
def hasOutsideAmbientDiag (r : Option (List Diag)) : Bool :=
  match r with
  | none => false
  | some ds => ds.any diagIsOutsideAmbient

/-- A preference-map value JavaScript treats as "blacklisted": a falsy
value, an empty string, or an object whose `replacement` is falsy. -/
def prefValueBlocked : PrefValue → Bool
  | .falsy => true
  | .str s => s == ""
  | .obj none _ => true
  | .obj (some s) _ => s == ""

/-- Fixture: the `Program` root node. -/
def progNode : SrcNode := ⟨"Program", false⟩

/-- Fixture: a plain (non-ambient) function node. -/
def fnNode : SrcNode := ⟨"FunctionDeclaration", false⟩

/-- Fixture: a class node carrying a `declare` marker. -/
def declaredClassNode : SrcNode := ⟨"ClassDeclaration", true⟩

/-- Fixture: a declaration nested directly under the root. -/
def plainChain : AncestorChain := [fnNode, progNode]

/-- Fixture: a declaration nested inside a `declare`-marked class. -/
def ambientChain : AncestorChain := [fnNode, declaredClassNode, progNode]

/-- Fixture: empty preference map, no structured tags. -/
def emptySettings : RuleSettings := ⟨[], []⟩

/-- Fixture: an always-redundant tag with a non-empty description. -/
def c3Tag : JsdocTag := ⟨"typedef", "", "desc", "", " ", " "⟩

/-- Fixture: the diagnostic the typed check emits for `c3Tag`. -/
def c3Diag : Diag :=
  ⟨.typedAlwaysRedundant,
   "\x27@typedef\x27 is redundant when using a type system.",
   some (.changeTokens ⟨"", "", "desc", "", "", ""⟩)⟩

/-- Fixture: a redundant-outside-ambient tag with a non-empty
description. -/
def c3CexTag : JsdocTag := ⟨"abstract", "", "desc", "", " ", " "⟩

/-- Fixture: an always-redundant tag with a blank description. -/
def c9Tag : JsdocTag := ⟨"typedef", "", "", "", " ", " "⟩

/-- Fixture: the diagnostic the typed check emits for `c9Tag`. -/
def c9Diag : Diag :=
  ⟨.typedAlwaysRedundant,
   "\x27@typedef\x27 is redundant when using a type system.",
   some (.removeTagLine true)⟩

/-- A successful association-list lookup means the key occurs among the
mapped-out keys. -/
lemma mem_keys_of_lookup {β : Type} (l : List (String × β)) (k : String)
    (v : β) (h : List.lookup k l = some v) :
    k ∈ l.map (fun p => p.1) := by
  induction l with
  | nil => simp [List.lookup] at h
  | cons p rest ih =>
    rw [List.lookup] at h
    cases hk : k == p.1 with
    | true =>
      simp only [List.map, List.mem_cons]
      exact Or.inl (eq_of_beq hk)
    | false =>
      rw [hk] at h
      simp only [List.map, List.mem_cons]
      exact Or.inr (ih h)

/-- Membership gives `List.contains`. -/
lemma contains_of_mem (l : List String) (a : String) (h : a ∈ l) :
    l.contains a = true :=
  List.elem_iff.mpr h

/-- `endsAtProgram` ignores the head of a chain with at least two
nodes. -/
lemma endsAtProgram_cons (n : SrcNode) (rest : AncestorChain)
    (h : rest ≠ []) : endsAtProgram (n :: rest) = endsAtProgram rest := by
  cases rest with
  | nil => exact absurd rfl h
  | cons m rest2 => rfl

/-- On a chain rooted at `Program`, the ambient walk of a
type-declaration (`.d.ts`) file always answers ambient. -/
lemma isInAmbientContext_of_dts (filename : String) (chain : AncestorChain)
    (hroot : endsAtProgram chain = true)
    (hdts : endsWithDts filename = true) :
    isInAmbientContext filename chain = some true := by
  induction chain with
  | nil => simp [endsAtProgram] at hroot
  | cons n rest ih =>
    cases rest with
    | nil =>
      have hp : n.typ = "Program" := by
        simpa [endsAtProgram] using hroot
      simp [isInAmbientContext, hp, hdts]
    | cons m rest2 =>
      rw [endsAtProgram_cons n (m :: rest2) (by simp)] at hroot
      by_cases hp : n.typ = "Program"
      · simp [isInAmbientContext, hp, hdts]
      · by_cases hd : n.declare
        · simp [isInAmbientContext, hp, hd]
        · simp only [isInAmbientContext, hp, hd, if_false,
            Bool.false_eq_true, if_neg]
          exact ih hroot

/-- The allow-list / preference policy path never emits a typed
redundancy diagnostic of any kind. -/
lemma policyCheck_kinds (o : RuleOptions) (s : RuleSettings)
    (commentText : String) (t : JsdocTag) :
    ∀ d ∈ policyCheck o s commentText t,
      diagIsTypedRedundancy d = false ∧ diagIsOutsideAmbient d = false := by
  intro d hd
  unfold policyCheck at hd
  dsimp only at hd
  repeat' split at hd
  all_goals simp_all [diagIsTypedRedundancy, diagIsOutsideAmbient]

/-- The policy path never emits the redundant-outside-ambient report. -/
lemma policyCheck_no_outside (o : RuleOptions) (s : RuleSettings)
    (commentText : String) (t : JsdocTag) :
    (policyCheck o s commentText t).any diagIsOutsideAmbient = false := by
  cases hany : (policyCheck o s commentText t).any diagIsOutsideAmbient with
  | false => rfl
  | true =>
    obtain ⟨x, hx, hpx⟩ := List.any_eq_true.mp hany
    rw [(policyCheck_kinds o s commentText t x hx).2] at hpx
    exact absurd hpx (by simp)

/-- Shape of a typed-validity report: exactly one diagnostic, of a
typed-redundancy kind, whose fix removes the tag line when the trimmed
description is empty and otherwise rewrites the tokens, clearing the
type always and the tag name exactly for always-redundant tags. -/
lemma checkTagForTypedValidity_reported (filename : String)
    (chain : AncestorChain) (t : JsdocTag) (ds : List Diag)
    (h : checkTagForTypedValidity filename chain t = some (true, ds)) :
    ∃ d, ds = [d] ∧ diagIsTypedRedundancy d = true ∧
      ((descriptionIsBlank t.description = true ∧
        d.fix = some (.removeTagLine true)) ∨
       (descriptionIsBlank t.description = false ∧ d.fix = some (.changeTokens
         { tag := if typedTagsAlwaysUnnecessary.contains t.tag then "" else t.tag
           name := t.name
           description := t.description
           type := ""
           postTag := if typedTagsAlwaysUnnecessary.contains t.tag then "" else t.postTag
           postType := "" }))) := by
  unfold checkTagForTypedValidity at h
  by_cases halw : typedTagsAlwaysUnnecessary.contains t.tag = true
  · rw [if_pos halw] at h
    injection h with h'
    injection h' with _ hds
    refine ⟨_, hds.symm, rfl, ?_⟩
    cases hdesc : descriptionIsBlank t.description with
    | true =>
      exact Or.inl ⟨rfl, by
        simp [reportWithTypeRemovalFixer, typeRemovalFix, hdesc]⟩
    | false =>
      refine Or.inr ⟨rfl, ?_⟩
      have hmemA : t.tag ∈ typedTagsAlwaysUnnecessary :=
        List.mem_of_elem_eq_true halw
      simp [reportWithTypeRemovalFixer, typeRemovalFix, hdesc, hmemA,
        applyTagChanges, mergeChanges, Option.orElse]
  · rw [if_neg halw] at h
    have halw' : typedTagsAlwaysUnnecessary.contains t.tag = false :=
      Bool.eq_false_iff.mpr halw
    cases hred : tagIsRedundantWhenTyped filename chain t with
    | none => rw [hred] at h; exact absurd h (by simp)
    | some b =>
      rw [hred] at h
      cases b with
      | true =>
        injection h with h'
        injection h' with _ hds
        refine ⟨_, hds.symm, rfl, ?_⟩
        cases hdesc : descriptionIsBlank t.description with
        | true =>
          exact Or.inl ⟨rfl, by
            simp [reportWithTypeRemovalFixer, typeRemovalFix, hdesc]⟩
        | false =>
          refine Or.inr ⟨rfl, ?_⟩
          have hnmemA : t.tag ∉ typedTagsAlwaysUnnecessary := by
            intro hm
            rw [contains_of_mem _ _ hm] at halw'
            exact absurd halw' (by simp)
          simp [reportWithTypeRemovalFixer, typeRemovalFix, hdesc, hnmemA,
            applyTagChanges, mergeChanges, Option.orElse]
      | false =>
        by_cases htpl : t.tag = "template" ∧ t.name = ""
        · rw [if_pos htpl] at h
          injection h with h'
          injection h' with _ hds
          refine ⟨_, hds.symm, rfl, ?_⟩
          cases hdesc : descriptionIsBlank t.description with
          | true =>
            exact Or.inl ⟨rfl, by
              simp [reportWithTypeRemovalFixer, typeRemovalFix, hdesc]⟩
          | false =>
            refine Or.inr ⟨rfl, ?_⟩
            have hnmemB : t.tag ∉ typedTagsAlwaysUnnecessary := by
              intro hm
              rw [contains_of_mem _ _ hm] at halw'
              exact absurd halw' (by simp)
            simp [reportWithTypeRemovalFixer, typeRemovalFix, hdesc, hnmemB,
              applyTagChanges, mergeChanges, Option.orElse]
        · rw [if_neg htpl] at h
          injection h with h'
          injection h' with hb _
          exact absurd hb.symm (by simp)

/-- C1: the spec says a tag named `default` is never flagged as
typed-redundant, in any context.  The code tests the tag's name-path
field (`jsdocTag.name`) instead of its tag name (`jsdocTag.tag`), so a
plain `@default` tag (empty name-path) in a non-ambient context IS
reported by the redundant-outside-ambient rule: evaluating the engine
at that input produces the typed-redundancy diagnostic the claim
forbids. -/
theorem c1_default_tag_reported_as_typed_redundant :
    hasOutsideAmbientDiag (processTag { typed := true } emptySettings
      "file.js" "" plainChain ⟨"default", "", "3", "", " ", " "⟩) = true := by
  decide

/-- C2: a tag whose preference-map entry is falsy (or an object with a
falsy replacement) is reported with a diagnostic carrying no fixer, so
auto-fix leaves the comment unchanged.  The hypotheses place the tag on
the policy path (not JSX-exempt and not typed-redundant, matching the
claim's context). -/
theorem c2_blacklisted_preference_reported_without_fixer
    (o : RuleOptions) (s : RuleSettings) (filename commentText : String)
    (chain : AncestorChain) (t : JsdocTag) (v : PrefValue)
    (hlookup : List.lookup t.tag s.tagNamePreference = some v)
    (hblocked : prefValueBlocked v = true)
    (hjsx : jsxTagNames.contains t.tag = false)
    (halways : typedTagsAlwaysUnnecessary.contains t.tag = false)
    (houtside : typedTagsUnnecessaryOutsideDeclare.contains t.tag = false)
    (htemplate : t.tag ≠ "template") :
    ∃ msg, processTag o s filename commentText chain t =
      some [{ kind := .blacklistedTag, message := msg, fix := none }] := by
  obtain ⟨msg, hmsg⟩ : ∃ msg,
      getPreferredTagName s.tagNamePreference t.tag = .blocked msg := by
    unfold getPreferredTagName
    rw [hlookup]
    cases v with
    | str s0 =>
      have h0 : s0 = "" := by simpa [prefValueBlocked] using hblocked
      subst h0
      exact ⟨defaultBlockedMessage t.tag, by simp⟩
    | falsy => exact ⟨defaultBlockedMessage t.tag, by simp⟩
    | obj r m =>
      cases r with
      | none => exact ⟨m.getD (defaultBlockedMessage t.tag), by simp⟩
      | some s0 =>
        have h0 : s0 = "" := by simpa [prefValueBlocked] using hblocked
        subst h0
        exact ⟨m.getD (defaultBlockedMessage t.tag), by simp⟩
  have hmem := mem_keys_of_lookup s.tagNamePreference t.tag v hlookup
  have hvalid : isValidTag (o.definedTags
      ++ definedPreferredTags s.tagNamePreference
      ++ s.tagNamePreference.map (fun p => p.1)
      ++ s.structuredTags) t.tag = true := by
    apply contains_of_mem
    simp only [List.mem_append]
    exact Or.inl (Or.inr hmem)
  have hpol : policyCheck o s commentText t =
      [{ kind := .blacklistedTag, message := msg, fix := none }] := by
    unfold policyCheck
    dsimp only
    rw [if_pos hvalid, hmsg]
  have hred : tagIsRedundantWhenTyped filename chain t = some false := by
    unfold tagIsRedundantWhenTyped
    rw [houtside]
    rfl
  have hcheck : checkTagForTypedValidity filename chain t = some (false, []) := by
    unfold checkTagForTypedValidity
    rw [halways]
    simp only [Bool.false_eq_true, if_false, hred]
    rw [if_neg (fun hcontra => htemplate hcontra.1)]
  refine ⟨msg, ?_⟩
  unfold processTag
  rw [hjsx]
  simp only [Bool.and_false, Bool.false_eq_true, if_false]
  cases ht : o.typed with
  | false => simp [hpol]
  | true => simp [hcheck, hpol]

/-- C2 witness: a concrete falsy mapping (`todo` mapped to `false`)
produces the blacklisted report with no fixer. -/
theorem c2_blacklisted_preference_reported_without_fixer_witness :
    ∃ msg, processTag { typed := true } ⟨[("todo", .falsy)], []⟩
      "file.js" "/** @todo x */" plainChain ⟨"todo", "x", "", "", " ", " "⟩ =
      some [{ kind := .blacklistedTag, message := msg, fix := none }] :=
  c2_blacklisted_preference_reported_without_fixer
    { typed := true } ⟨[("todo", .falsy)], []⟩ "file.js" "/** @todo x */"
    plainChain ⟨"todo", "x", "", "", " ", " "⟩ PrefValue.falsy
    (by decide) (by decide) (by decide) (by decide) (by decide) (by decide)

/-- C3 counterexample: the claim says that for a typed-redundant tag
with a non-empty description the fix strips the type-annotation AND
tag-name portions.  For a redundant-outside-ambient tag (`@abstract`
with description "desc") the emitted fix clears only the type tokens:
the kept tokens still carry tag name "abstract", refuting the claim at
this input. -/
theorem c3_counterexample :
    processTag { typed := true } emptySettings "file.js" "" plainChain c3CexTag =
      some [{ kind := .typedRedundantOutsideAmbient,
              message := "\x27@abstract\x27 is redundant outside of ambient (`declare`/`.d.ts`) contexts when using a type system.",
              fix := some (.changeTokens ⟨"abstract", "", "desc", "", " ", ""⟩) }] := by
  decide

/-- C3 (amended): for every tag reported as typed-redundant, if the
trimmed description is empty the fix removes the whole tag line (with
empty-block removal); otherwise the fix clears the type-annotation
tokens, clears the tag-name tokens exactly when the tag is in the
always-redundant set, and preserves the description and name-path. -/
theorem c3_typed_redundancy_fix_shape (filename : String)
    (chain : AncestorChain) (t : JsdocTag) (ds : List Diag)
    (h : checkTagForTypedValidity filename chain t = some (true, ds)) :
    ∃ d, ds = [d] ∧
      ((descriptionIsBlank t.description = true ∧
        d.fix = some (.removeTagLine true)) ∨
       (descriptionIsBlank t.description = false ∧ d.fix = some (.changeTokens
         { tag := if typedTagsAlwaysUnnecessary.contains t.tag then "" else t.tag
           name := t.name
           description := t.description
           type := ""
           postTag := if typedTagsAlwaysUnnecessary.contains t.tag then "" else t.postTag
           postType := "" }))) := by
  obtain ⟨d, hds, _, hfix⟩ :=
    checkTagForTypedValidity_reported filename chain t ds h
  exact ⟨d, hds, hfix⟩

/-- C3 witness: the amended statement applied to `@typedef` with
description "desc" in a plain context. -/
theorem c3_typed_redundancy_fix_shape_witness :
    ∃ d, [c3Diag] = [d] ∧
      ((descriptionIsBlank c3Tag.description = true ∧
        d.fix = some (.removeTagLine true)) ∨
       (descriptionIsBlank c3Tag.description = false ∧ d.fix = some (.changeTokens
         { tag := if typedTagsAlwaysUnnecessary.contains c3Tag.tag then "" else c3Tag.tag
           name := c3Tag.name
           description := c3Tag.description
           type := ""
           postTag := if typedTagsAlwaysUnnecessary.contains c3Tag.tag then "" else c3Tag.postTag
           postType := "" }))) :=
  c3_typed_redundancy_fix_shape "file.js" plainChain c3Tag [c3Diag] (by decide)

/-- C4 counterexample: the claim says a node with no declare marker and
no further ancestor is classified non-ambient rather than causing a
failure.  The walk on such a chain reads the missing parent and crashes
(modelled as `none`), instead of returning non-ambient (`some false`). -/
theorem c4_counterexample :
    isInAmbientContext "file.js" [fnNode] = none := by
  decide

/-- C4 (amended): the ambient-context walk is total and terminates on
every ancestor chain that reaches a `Program` root (the guarantee a
well-formed ESLint tree gives); on a malformed chain exhausted without
a `Program` root the walk fails instead of classifying non-ambient. -/
theorem c4_ambient_walk_total_on_rooted_chains (filename : String)
    (chain : AncestorChain) (h : endsAtProgram chain = true) :
    ∃ b, isInAmbientContext filename chain = some b := by
  induction chain with
  | nil => simp [endsAtProgram] at h
  | cons n rest ih =>
    cases rest with
    | nil =>
      have hp : n.typ = "Program" := by
        simpa [endsAtProgram] using h
      exact ⟨endsWithDts filename, by simp [isInAmbientContext, hp]⟩
    | cons m rest2 =>
      rw [endsAtProgram_cons n (m :: rest2) (by simp)] at h
      by_cases hp : n.typ = "Program"
      · exact ⟨endsWithDts filename, by simp [isInAmbientContext, hp]⟩
      · by_cases hd : n.declare
        · exact ⟨true, by simp [isInAmbientContext, hp, hd]⟩
        · obtain ⟨b, hb⟩ := ih h
          refine ⟨b, ?_⟩
          simp only [isInAmbientContext, hp, hd, if_false,
            Bool.false_eq_true, if_neg]
          exact hb

/-- C4 witness: the amended statement at a `declare`-marked chain. -/
theorem c4_ambient_walk_total_witness :
    ∃ b, isInAmbientContext "file.ts" ambientChain = some b :=
  c4_ambient_walk_total_on_rooted_chains "file.ts" ambientChain (by decide)

/-- C5: when the JSX-exemption option is on, a tag in the JSX-pragma
set produces no diagnostic at all, regardless of typed mode, allow
lists, preference settings, file or context (the `continue` at the top
of the loop dominates every later check). -/
theorem c5_jsx_exemption_dominates (o : RuleOptions) (s : RuleSettings)
    (filename commentText : String) (chain : AncestorChain) (t : JsdocTag)
    (hjsx : o.jsxTags = true) (hmem : jsxTagNames.contains t.tag = true) :
    processTag o s filename commentText chain t = some [] := by
  unfold processTag
  rw [hjsx, hmem]
  rfl

/-- C5 witness: `@jsx` with typed mode on and `jsx` even blacklisted in
the preference map still yields no diagnostic. -/
theorem c5_jsx_exemption_dominates_witness :
    processTag { jsxTags := true, typed := true } ⟨[("jsx", .falsy)], []⟩
      "file.js" "/** @jsx h */" plainChain ⟨"jsx", "h", "", "", " ", " "⟩ =
      some [] :=
  c5_jsx_exemption_dominates { jsxTags := true, typed := true }
    ⟨[("jsx", .falsy)], []⟩ "file.js" "/** @jsx h */" plainChain
    ⟨"jsx", "h", "", "", " ", " "⟩ (by rfl) (by decide)

/-- C6: with typed mode on and the JSX exemption not applying, a tag in
the always-redundant set is reported "redundant when using a type
system" for every chain and filename, ambient or not. -/
theorem c6_always_redundant_reported_in_any_context (o : RuleOptions)
    (s : RuleSettings) (filename commentText : String)
    (chain : AncestorChain) (t : JsdocTag)
    (htyped : o.typed = true)
    (hmem : typedTagsAlwaysUnnecessary.contains t.tag = true)
    (hjsx : jsxTagNames.contains t.tag = false) :
    ∃ fx, processTag o s filename commentText chain t =
      some [{ kind := .typedAlwaysRedundant,
              message := "\x27@" ++ t.tag ++ "\x27 is redundant when using a type system.",
              fix := some fx }] := by
  have hcheck : checkTagForTypedValidity filename chain t =
      some (true, [reportWithTypeRemovalFixer .typedAlwaysRedundant
        ("\x27@" ++ t.tag ++ "\x27 is redundant when using a type system.")
        t { tag := some "", postTag := some "" }]) := by
    unfold checkTagForTypedValidity
    rw [if_pos hmem]
  refine ⟨typeRemovalFix t { tag := some "", postTag := some "" }, ?_⟩
  unfold processTag
  rw [hjsx]
  simp [htyped, hcheck, reportWithTypeRemovalFixer]

/-- C6 witness: `@typedef` inside a `declare`-marked class of a `.d.ts`
file (an ambient context) is still reported. -/
theorem c6_always_redundant_witness :
    ∃ fx, processTag { typed := true } emptySettings "file.d.ts" ""
      ambientChain ⟨"typedef", "", "", "", " ", " "⟩ =
      some [{ kind := .typedAlwaysRedundant,
              message := "\x27@" ++ "typedef" ++ "\x27 is redundant when using a type system.",
              fix := some fx }] :=
  c6_always_redundant_reported_in_any_context { typed := true }
    emptySettings "file.d.ts" "" ambientChain ⟨"typedef", "", "", "", " ", " "⟩
    (by rfl) (by decide) (by decide)

/-- C7 counterexample: `@abstract` (in the redundant-outside-ambient
set, not always-redundant) on a plain declaration with typed mode on
should be reported per the claim, but when the tag's name-path word is
"default" the code's misplaced `name` check suppresses the report: no
typed-redundancy diagnostic is produced at this input. -/
theorem c7_counterexample :
    hasOutsideAmbientDiag (processTag { typed := true } emptySettings
      "file.js" "" plainChain ⟨"abstract", "default", "d", "", " ", " "⟩) =
      false := by
  decide

/-- C7 (amended): for a tag in the redundant-outside-ambient set and
not in the always-redundant set, with typed mode on, on a well-formed
chain: in an ambient context no redundant-outside-ambient diagnostic is
produced, and in a plain context the diagnostic is produced provided
the tag's name-path field is not the string "default" (the code tests
`jsdocTag.name`, see the C1/C7 counterexamples). -/
theorem c7_outside_ambient_redundancy (o : RuleOptions) (s : RuleSettings)
    (filename commentText : String) (n : SrcNode) (rest : AncestorChain)
    (t : JsdocTag)
    (htyped : o.typed = true)
    (hmem : typedTagsUnnecessaryOutsideDeclare.contains t.tag = true)
    (halways : typedTagsAlwaysUnnecessary.contains t.tag = false)
    (hjsx : jsxTagNames.contains t.tag = false)
    (hroot : endsAtProgram rest = true) :
    (isInAmbientContext filename (n :: rest) = some true →
      hasOutsideAmbientDiag
        (processTag o s filename commentText (n :: rest) t) = false) ∧
    (isInAmbientContext filename (n :: rest) = some false →
      t.name ≠ "default" →
      ∃ fx, processTag o s filename commentText (n :: rest) t =
        some [{ kind := .typedRedundantOutsideAmbient,
                message := "\x27@" ++ t.tag ++ "\x27 is redundant outside of ambient (`declare`/`.d.ts`) contexts when using a type system.",
                fix := some fx }]) := by
  have hrest_ne : rest ≠ [] := by
    intro hnil
    rw [hnil] at hroot
    simp [endsAtProgram] at hroot
  have hchainroot : endsAtProgram (n :: rest) = true := by
    rw [endsAtProgram_cons n rest hrest_ne]
    exact hroot
  have htpl : t.tag ≠ "template" := by
    intro hEq
    rw [hEq] at hmem
    exact absurd hmem (by decide)
  have hmemOut : t.tag ∈ typedTagsUnnecessaryOutsideDeclare :=
    List.mem_of_elem_eq_true hmem
  have hnmemA : t.tag ∉ typedTagsAlwaysUnnecessary := by
    intro hm
    rw [contains_of_mem _ _ hm] at halways
    exact absurd halways (by simp)
  constructor
  · intro hamb
    have hred0 : tagIsRedundantWhenTyped filename (n :: rest) t = some false := by
      by_cases hname : t.name = "default"
      · simp [tagIsRedundantWhenTyped, hmem, hmemOut, hname]
      · cases hdf : endsWithDts filename with
        | false => simp [tagIsRedundantWhenTyped, hmem, hmemOut, hname, hdf, hamb]
        | true =>
          obtain ⟨p, hp⟩ : ∃ p, rest.head? = some p := by
            cases rest with
            | nil => exact absurd rfl hrest_ne
            | cons q qs => exact ⟨q, rfl⟩
          by_cases hpt : p.typ = "Program"
          · simp [tagIsRedundantWhenTyped, hmem, hmemOut, hname, hdf, hp, hpt]
          · simp [tagIsRedundantWhenTyped, hmem, hmemOut, hname, hdf, hp, hpt, hamb]
    have hcheck : checkTagForTypedValidity filename (n :: rest) t =
        some (false, []) := by
      unfold checkTagForTypedValidity
      simp [halways, hnmemA, hred0, htpl]
    unfold processTag
    rw [hjsx]
    simp [htyped, hcheck, hasOutsideAmbientDiag,
      policyCheck_no_outside o s commentText t]
  · intro hamb hname
    have hdts : endsWithDts filename = false := by
      cases hdf : endsWithDts filename with
      | false => rfl
      | true =>
        have hcontra :=
          isInAmbientContext_of_dts filename (n :: rest) hchainroot hdf
        rw [hcontra] at hamb
        exact absurd hamb (by simp)
    have hred : tagIsRedundantWhenTyped filename (n :: rest) t = some true := by
      simp [tagIsRedundantWhenTyped, hmem, hmemOut, hname, hdts, hamb]
    have hcheck : checkTagForTypedValidity filename (n :: rest) t =
        some (true, [reportWithTypeRemovalFixer .typedRedundantOutsideAmbient
          ("\x27@" ++ t.tag ++ "\x27 is redundant outside of ambient (`declare`/`.d.ts`) contexts when using a type system.")
          t {}]) := by
      unfold checkTagForTypedValidity
      simp [halways, hnmemA, hred]
    refine ⟨typeRemovalFix t {}, ?_⟩
    unfold processTag
    rw [hjsx]
    simp [htyped, hcheck, reportWithTypeRemovalFixer]

/-- C7 witness: the amended statement at `@abstract` inside a
`declare`-marked class (no report) and at `@abstract` on a plain
declaration (report). -/
theorem c7_outside_ambient_redundancy_witness :
    (hasOutsideAmbientDiag (processTag { typed := true } emptySettings
      "file.js" "" (fnNode :: [declaredClassNode, progNode])
      ⟨"abstract", "", "d", "", " ", " "⟩) = false) ∧
    (∃ fx, processTag { typed := true } emptySettings "file.js" ""
      (fnNode :: [progNode]) ⟨"abstract", "", "d", "", " ", " "⟩ =
      some [{ kind := .typedRedundantOutsideAmbient,
              message := "\x27@" ++ "abstract" ++ "\x27 is redundant outside of ambient (`declare`/`.d.ts`) contexts when using a type system.",
              fix := some fx }]) :=
  ⟨(c7_outside_ambient_redundancy { typed := true } emptySettings "file.js" ""
      fnNode [declaredClassNode, progNode] ⟨"abstract", "", "d", "", " ", " "⟩
      (by rfl) (by decide) (by decide) (by decide) (by decide)).1 (by decide),
   (c7_outside_ambient_redundancy { typed := true } emptySettings "file.js" ""
      fnNode [progNode] ⟨"abstract", "", "d", "", " ", " "⟩
      (by rfl) (by decide) (by decide) (by decide) (by decide)).2
     (by decide) (by decide)⟩

/-- Decomposition of the first-whole-word-match replacement: when the
pattern matches somewhere, the text splits as prefix, matched
occurrence, suffix; the replacement substitutes exactly that occurrence
and keeps prefix and suffix character-identical, and no earlier
position matches. -/
lemma replaceFirstTag_decomp (old new : List Char) :
    ∀ text : List Char, hasTagMatch old text = true →
      ∃ pre suf, text = pre ++ ('@' :: old) ++ suf ∧
        replaceFirstTag old new text = pre ++ ('@' :: new) ++ suf ∧
        (∀ i, i < pre.length → matchHere old (text.drop i) = false) := by
  intro text
  induction text with
  | nil => intro h; simp [hasTagMatch] at h
  | cons c rest ih =>
    intro h
    cases hm : matchHere old (c :: rest) with
    | true =>
      have hm' := hm
      unfold matchHere at hm'
      rw [Bool.and_eq_true] at hm'
      obtain ⟨htakeB, hbound⟩ := hm'
      have htake : (c :: rest).take (old.length + 1) = '@' :: old :=
        eq_of_beq htakeB
      have hsplit : c :: rest =
          ('@' :: old) ++ (c :: rest).drop (old.length + 1) := by
        conv_lhs => rw [← List.take_append_drop (old.length + 1) (c :: rest)]
        rw [htake]
      refine ⟨[], (c :: rest).drop (old.length + 1), ?_, ?_, ?_⟩
      · simpa using hsplit
      · simp [replaceFirstTag, hm, List.drop]
      · intro i hi
        simp at hi
    | false =>
      have h' : hasTagMatch old rest = true := by
        simpa [hasTagMatch, hm] using h
      obtain ⟨pre, suf, h1, h2, h3⟩ := ih h'
      refine ⟨c :: pre, suf, ?_, ?_, ?_⟩
      · rw [List.cons_append, List.cons_append, ← h1]
      · rw [List.cons_append, List.cons_append]
        unfold replaceFirstTag
        rw [if_neg (by simp [hm])]
        rw [h2]
      · intro i hi
        cases i with
        | zero => simpa using hm
        | succ j =>
          have hj : j < pre.length := by
            simpa [Nat.succ_lt_succ_iff] using hi
          have := h3 j hj
          simpa [List.drop] using this

/-- C8: for a tag renamed by the preference map, the proposed fix text
is the full raw comment with exactly the first whole-word, case
sensitive occurrence of `@⟨originalName⟩` replaced by
`@⟨preferredName⟩`: the text decomposes as prefix-match-suffix with no
earlier match position, and the fixer output keeps the prefix and
suffix (every other character, including the tag's own name-path and
all other tags) identical.  (Escaping of regex metacharacters in the
source corresponds to the pattern being matched literally here.) -/
theorem c8_rename_fix_replaces_first_whole_word (o : RuleOptions)
    (s : RuleSettings) (filename commentText : String)
    (chain : AncestorChain) (t : JsdocTag) (preferred : String)
    (hlookup : List.lookup t.tag s.tagNamePreference = some (.str preferred))
    (hne : preferred ≠ t.tag) (hnonempty : preferred ≠ "")
    (hjsx : jsxTagNames.contains t.tag = false)
    (halways : typedTagsAlwaysUnnecessary.contains t.tag = false)
    (houtside : typedTagsUnnecessaryOutsideDeclare.contains t.tag = false)
    (htemplate : t.tag ≠ "template")
    (hmatch : hasTagMatch t.tag.toList commentText.toList = true) :
    ∃ pre suf,
      commentText.toList = pre ++ ('@' :: t.tag.toList) ++ suf ∧
      (∀ i, i < pre.length →
        matchHere t.tag.toList (commentText.toList.drop i) = false) ∧
      processTag o s filename commentText chain t =
        some [{ kind := .preferRename,
                message := "Invalid JSDoc tag (preference). Replace \"" ++ t.tag ++ "\" JSDoc tag with \"" ++ preferred ++ "\".",
                fix := some (.replaceComment
                  ⟨pre ++ ('@' :: preferred.toList) ++ suf⟩) }] := by
  obtain ⟨pre, suf, h1, h2, h3⟩ :=
    replaceFirstTag_decomp t.tag.toList preferred.toList commentText.toList hmatch
  refine ⟨pre, suf, h1, h3, ?_⟩
  have hpref : getPreferredTagName s.tagNamePreference t.tag =
      .proceed preferred none := by
    unfold getPreferredTagName
    rw [hlookup]
    simp [hnonempty]
  have hmem := mem_keys_of_lookup s.tagNamePreference t.tag _ hlookup
  have hvalid : isValidTag (o.definedTags
      ++ definedPreferredTags s.tagNamePreference
      ++ s.tagNamePreference.map (fun p => p.1)
      ++ s.structuredTags) t.tag = true := by
    apply contains_of_mem
    simp only [List.mem_append]
    exact Or.inl (Or.inr hmem)
  have hjsrepl : jsReplaceTag t.tag preferred commentText =
      ⟨pre ++ ('@' :: preferred.toList) ++ suf⟩ := by
    unfold jsReplaceTag
    rw [h2]
  have hpol : policyCheck o s commentText t =
      [{ kind := .preferRename,
         message := "Invalid JSDoc tag (preference). Replace \"" ++ t.tag ++ "\" JSDoc tag with \"" ++ preferred ++ "\".",
         fix := some (.replaceComment
           ⟨pre ++ ('@' :: preferred.toList) ++ suf⟩) }] := by
    unfold policyCheck
    dsimp only
    rw [if_pos hvalid, hpref]
    dsimp only
    rw [if_neg hne, hjsrepl]
    simp
  have hred : tagIsRedundantWhenTyped filename chain t = some false := by
    unfold tagIsRedundantWhenTyped
    rw [houtside]
    rfl
  have hcheck : checkTagForTypedValidity filename chain t = some (false, []) := by
    unfold checkTagForTypedValidity
    rw [halways]
    simp only [Bool.false_eq_true, if_false, hred]
    rw [if_neg (fun hcontra => htemplate hcontra.1)]
  unfold processTag
  rw [hjsx]
  simp only [Bool.and_false, Bool.false_eq_true, if_false]
  cases ht : o.typed with
  | false => simp [hpol]
  | true => simp [hcheck, hpol]

/-- C8 witness: the mapping `arg ↦ param` on the comment
`/** @arg foo */`. -/
theorem c8_rename_fix_witness :
    ∃ pre suf,
      ("/** @arg foo */").toList = pre ++ ('@' :: ("arg").toList) ++ suf ∧
      (∀ i, i < pre.length →
        matchHere ("arg").toList (("/** @arg foo */").toList.drop i) = false) ∧
      processTag {} ⟨[("arg", .str "param")], []⟩ "file.js" "/** @arg foo */"
        plainChain ⟨"arg", "foo", "", "", " ", " "⟩ =
        some [{ kind := .preferRename,
                message := "Invalid JSDoc tag (preference). Replace \"" ++ "arg" ++ "\" JSDoc tag with \"" ++ "param" ++ "\".",
                fix := some (.replaceComment
                  ⟨pre ++ ('@' :: ("param").toList) ++ suf⟩) }] :=
  c8_rename_fix_replaces_first_whole_word {} ⟨[("arg", .str "param")], []⟩
    "file.js" "/** @arg foo */" plainChain ⟨"arg", "foo", "", "", " ", " "⟩
    "param" (by decide) (by decide) (by decide) (by decide) (by decide)
    (by decide) (by decide) (by decide)

/-- C9: when typed mode is on and the typed-validity check reports, the
per-tag processing stops there (`continue`): the output is exactly that
single typed-redundancy diagnostic, and the allow-list / preference
policy is never consulted for the tag. -/
theorem c9_typed_redundancy_short_circuits (o : RuleOptions)
    (s : RuleSettings) (filename commentText : String)
    (chain : AncestorChain) (t : JsdocTag) (ds : List Diag)
    (htyped : o.typed = true)
    (hjsx : jsxTagNames.contains t.tag = false)
    (h : checkTagForTypedValidity filename chain t = some (true, ds)) :
    processTag o s filename commentText chain t = some ds ∧
    ∃ d, ds = [d] ∧ diagIsTypedRedundancy d = true := by
  constructor
  · unfold processTag
    rw [hjsx]
    simp [htyped, h]
  · obtain ⟨d, hds, hkind, _⟩ :=
      checkTagForTypedValidity_reported filename chain t ds h
    exact ⟨d, hds, hkind⟩

/-- C9 witness: `@typedef` with a blank description in typed mode. -/
theorem c9_typed_redundancy_short_circuits_witness :
    processTag { typed := true } emptySettings "file.js" "" plainChain c9Tag =
      some [c9Diag] ∧
    ∃ d, [c9Diag] = [d] ∧ diagIsTypedRedundancy d = true :=
  c9_typed_redundancy_short_circuits { typed := true } emptySettings
    "file.js" "" plainChain c9Tag [c9Diag] (by rfl) (by decide) (by decide)

/-- C10: on a well-formed chain (node with a parent, rooted at
`Program`), the explicit `.d.ts`-and-parent-is-`Program` early return
never decides the outcome (removing it yields the same function), and
in a `.d.ts` file the ambient walk answers ambient for every node, so
the redundant-outside-ambient rule reports nothing, nested or
top-level. -/
theorem c10_dts_ambient_subsumption (o : RuleOptions) (s : RuleSettings)
    (commentText filename : String) (n : SrcNode) (rest : AncestorChain)
    (t : JsdocTag)
    (hroot : endsAtProgram rest = true) :
    tagIsRedundantWhenTyped filename (n :: rest) t =
      tagIsRedundantWhenTypedNoParentCheck filename (n :: rest) t ∧
    (endsWithDts filename = true →
      isInAmbientContext filename (n :: rest) = some true ∧
      tagIsRedundantWhenTyped filename (n :: rest) t = some false ∧
      hasOutsideAmbientDiag
        (processTag o s filename commentText (n :: rest) t) = false) := by
  have hrest_ne : rest ≠ [] := by
    intro hnil
    rw [hnil] at hroot
    simp [endsAtProgram] at hroot
  have hchainroot : endsAtProgram (n :: rest) = true := by
    rw [endsAtProgram_cons n rest hrest_ne]
    exact hroot
  obtain ⟨p, hp⟩ : ∃ p, rest.head? = some p := by
    cases rest with
    | nil => exact absurd rfl hrest_ne
    | cons q qs => exact ⟨q, rfl⟩
  have hEq : tagIsRedundantWhenTyped filename (n :: rest) t =
      tagIsRedundantWhenTypedNoParentCheck filename (n :: rest) t := by
    cases hout : typedTagsUnnecessaryOutsideDeclare.contains t.tag with
    | false =>
      have hnm : t.tag ∉ typedTagsUnnecessaryOutsideDeclare := by
        intro hm2
        rw [contains_of_mem _ _ hm2] at hout
        exact absurd hout (by simp)
      simp [tagIsRedundantWhenTyped, tagIsRedundantWhenTypedNoParentCheck,
        hout, hnm]
    | true =>
      have hmem' := List.mem_of_elem_eq_true hout
      by_cases hname : t.name = "default"
      · simp [tagIsRedundantWhenTyped, tagIsRedundantWhenTypedNoParentCheck,
          hout, hmem', hname]
      · cases hdf : endsWithDts filename with
        | false =>
          simp [tagIsRedundantWhenTyped, tagIsRedundantWhenTypedNoParentCheck,
            hout, hmem', hname, hdf]
        | true =>
          have hambT :=
            isInAmbientContext_of_dts filename (n :: rest) hchainroot hdf
          by_cases hpt : p.typ = "Program" <;>
            simp [tagIsRedundantWhenTyped, tagIsRedundantWhenTypedNoParentCheck,
              hout, hmem', hname, hdf, hp, hpt, hambT]
  refine ⟨hEq, fun hdf => ?_⟩
  have hambT := isInAmbientContext_of_dts filename (n :: rest) hchainroot hdf
  have hredF : tagIsRedundantWhenTyped filename (n :: rest) t = some false := by
    rw [hEq]
    cases hout : typedTagsUnnecessaryOutsideDeclare.contains t.tag with
    | false =>
      have hnm : t.tag ∉ typedTagsUnnecessaryOutsideDeclare := by
        intro hm2
        rw [contains_of_mem _ _ hm2] at hout
        exact absurd hout (by simp)
      simp [tagIsRedundantWhenTypedNoParentCheck, hout, hnm]
    | true =>
      have hmem' := List.mem_of_elem_eq_true hout
      by_cases hname : t.name = "default"
      · simp [tagIsRedundantWhenTypedNoParentCheck, hout, hmem', hname]
      · simp [tagIsRedundantWhenTypedNoParentCheck, hout, hmem', hname, hambT]
  refine ⟨hambT, hredF, ?_⟩
  unfold processTag
  cases hjsxb : (o.jsxTags && jsxTagNames.contains t.tag) with
  | true => simp [hjsxb, hasOutsideAmbientDiag]
  | false =>
    simp only [hjsxb, Bool.false_eq_true, if_false]
    cases ht : o.typed with
    | false =>
      simp [hasOutsideAmbientDiag, policyCheck_no_outside o s commentText t]
    | true =>
      simp only [if_true]
      cases halw : typedTagsAlwaysUnnecessary.contains t.tag with
      | true =>
        have hcheck : checkTagForTypedValidity filename (n :: rest) t =
            some (true, [reportWithTypeRemovalFixer .typedAlwaysRedundant
              ("\x27@" ++ t.tag ++ "\x27 is redundant when using a type system.")
              t { tag := some "", postTag := some "" }]) := by
          unfold checkTagForTypedValidity
          rw [if_pos halw]
        simp [hcheck, hasOutsideAmbientDiag, diagIsOutsideAmbient,
          reportWithTypeRemovalFixer]
      | false =>
        by_cases htpl : t.tag = "template" ∧ t.name = ""
        · have hcheck : checkTagForTypedValidity filename (n :: rest) t =
              some (true, [reportWithTypeRemovalFixer .typedTemplateNoName
                "\x27@template\x27 without a name is redundant when using a type system."
                t {}]) := by
            unfold checkTagForTypedValidity
            rw [halw]
            simp only [Bool.false_eq_true, if_false, hredF]
            rw [if_pos htpl]
          simp [hcheck, hasOutsideAmbientDiag, diagIsOutsideAmbient,
            reportWithTypeRemovalFixer]
        · have hcheck : checkTagForTypedValidity filename (n :: rest) t =
              some (false, []) := by
            unfold checkTagForTypedValidity
            rw [halw]
            simp only [Bool.false_eq_true, if_false, hredF]
            rw [if_neg htpl]
          simp [hcheck, hasOutsideAmbientDiag,
            policyCheck_no_outside o s commentText t]

/-- C10 witness: a nested declaration of a `.d.ts` file. -/
theorem c10_dts_ambient_subsumption_witness :
    (tagIsRedundantWhenTyped "file.d.ts" (fnNode :: [progNode]) c3CexTag =
      tagIsRedundantWhenTypedNoParentCheck "file.d.ts"
        (fnNode :: [progNode]) c3CexTag) ∧
    (endsWithDts "file.d.ts" = true →
      isInAmbientContext "file.d.ts" (fnNode :: [progNode]) = some true ∧
      tagIsRedundantWhenTyped "file.d.ts" (fnNode :: [progNode]) c3CexTag =
        some false ∧
      hasOutsideAmbientDiag (processTag { typed := true } emptySettings
        "file.d.ts" "" (fnNode :: [progNode]) c3CexTag) = false) :=
  c10_dts_ambient_subsumption { typed := true } emptySettings ""
    "file.d.ts" fnNode [progNode] c3CexTag (by decide)

end CheckTagNames
